import Mathlib

/-!
Verification of the water-body candidate grouping, sorting and formatting
utilities of the paddlepartner mobile client.

The embedded code:

* `getGroupedCandidates` (src/utils/waterBodyGrouping.ts): groups community
  water-body candidates by `sharedWaterBodyId` and separates OSM candidates
  into a flat list, subject to a `showOSM` toggle.
* the render order of `WaterBodySelectionList.tsx`: grouped community water
  bodies first, then the flat OSM list.
* the result sort of `waterBodyService.searchCombined`: a JavaScript
  `Array.prototype.sort` with a comparator on optional distances.
* `waterBodyService.formatDistance` and `waterBodyService.calculateDistance`.

JavaScript strings are `String`, numbers are `Rat` (for the exact-value
semantics of the comparisons and roundings involved) or `Real` (for the
trigonometric distance computation), and optional record fields are `Option`.
-/

namespace PaddlePartner

/-- The fields of the `WaterBodySearchResult` record (the shared search-result
shape re-exported by `src/services/waterBodyService.ts`) that are read by
`getGroupedCandidates` and `WaterBodySelectionList`: `source`,
`sharedWaterBodyId`, `name`, `type`, `distance`, `sectionIndex`, `sectionId`,
`sectionName`, `osmId`.  Optional fields are `Option`; `distance` and
`sectionIndex` are numbers, modelled as rationals. -/
structure WaterBodySearchResult where
  source : String
  sharedWaterBodyId : Option String := none
  name : String := ""
  type : Option String := none
  distance : Option Rat := none
  sectionIndex : Option Rat := none
  sectionId : Option String := none
  sectionName : Option String := none
  osmId : Option String := none
  deriving DecidableEq, Repr

/-- An element of `GroupedWaterBody.sections` as built in
src/utils/waterBodyGrouping.ts (lines 68-73): `sectionIndex`, `sectionId`,
`sectionName` plus the full source candidate. -/
structure GroupSection where
  sectionIndex : Rat
  sectionId : String
  sectionName : String
  candidate : WaterBodySearchResult
  deriving DecidableEq, Repr

/-- Structure `GroupedWaterBody` from src/utils/waterBodyGrouping.ts. -/
structure GroupedWaterBody where
  waterBodyId : String
  name : String
  type : Option String := none
  distance : Option Rat := none
  sections : List GroupSection := []
  deriving DecidableEq, Repr

/-- Structure `GroupedCandidatesResult` from src/utils/waterBodyGrouping.ts. -/
structure GroupedCandidatesResult where
  groups : List GroupedWaterBody
  osmCandidates : List WaterBodySearchResult
  deriving DecidableEq, Repr

/-- JavaScript truthiness of an optional string field: `undefined` and the
empty string are falsy, every other string is truthy. -/
def strTruthy : Option String → Bool
  | none => false
  | some s => !(s == "")

/-- JavaScript `x || 0` on an optional numeric field (`0` itself is falsy and
is replaced by the literal `0`, which is the same value). -/
def numOrZero : Option Rat → Rat
  | none => 0
  | some x => if x == 0 then 0 else x

/-- JavaScript `x || ""` on an optional string field. -/
def strOrEmpty : Option String → String
  | none => ""
  | some s => if s == "" then "" else s

/-- The test `candidate.source === "osm"` (waterBodyGrouping.ts line 36). -/
def isOSM (c : WaterBodySearchResult) : Bool :=
  c.source == "osm"

/-- The fresh group stored by `groups.set(waterBodyId, {...})`
(waterBodyGrouping.ts lines 54-60). -/
def newGroup (w : String) (c : WaterBodySearchResult) : GroupedWaterBody :=
  { waterBodyId := w, name := c.name, type := c.type, distance := c.distance,
    sections := [] }

/-- The section object pushed by `group.sections.push({...})`
(waterBodyGrouping.ts lines 68-73): `sectionIndex` defaults to `0` and
`sectionId` to `""` via `||`. -/
def mkGroupSection (c : WaterBodySearchResult) : GroupSection :=
  { sectionIndex := numOrZero c.sectionIndex
    sectionId := strOrEmpty c.sectionId
    sectionName := strOrEmpty c.sectionName
    candidate := c }

/-- Lines 67-74 of waterBodyGrouping.ts: push a section onto the group if the
candidate carries a (truthy) `sectionName`. -/
def addSection (g : GroupedWaterBody) (c : WaterBodySearchResult) : GroupedWaterBody :=
  if strTruthy c.sectionName then
    { g with sections := g.sections ++ [mkGroupSection c] }
  else g

/-- The `groups.get(waterBodyId)!` lookup followed by the in-place section push, on the
insertion-ordered association-list view of the `Map`: update the first (and,
by the `Map` invariant, only) group carrying the key. -/
def updateFirst (c : WaterBodySearchResult) (w : String) :
    List GroupedWaterBody → List GroupedWaterBody
  | [] => []
  | g :: gs =>
    if g.waterBodyId == w then addSection g c :: gs
    else g :: updateFirst c w gs

/-- The `groups.has(waterBodyId)` test on the association-list view. -/
def hasGroup (gs : List GroupedWaterBody) (w : String) : Bool :=
  gs.any (fun g => g.waterBodyId == w)

/-- The community branch of the loop body of `getGroupedCandidates`
(waterBodyGrouping.ts lines 50-74), acting on the insertion-ordered group
list: skip candidates with a falsy `sharedWaterBodyId`, create the group on
first sight of a key, then push the section if present. -/
def stepGroups (gs : List GroupedWaterBody) (c : WaterBodySearchResult) :
    List GroupedWaterBody :=
  if strTruthy c.sharedWaterBodyId then
    let w := c.sharedWaterBodyId.getD ""
    let gs1 := if hasGroup gs w then gs else gs ++ [newGroup w c]
    updateFirst c w gs1
  else gs

/-- One iteration of the `for (const candidate of candidates)` loop of
`getGroupedCandidates` (waterBodyGrouping.ts lines 35-75), acting on the
`(groups, osmCandidates)` state. -/
def step (showOSM : Bool)
    (st : List GroupedWaterBody × List WaterBodySearchResult)
    (c : WaterBodySearchResult) :
    List GroupedWaterBody × List WaterBodySearchResult :=
  if isOSM c && !showOSM then st
  else if isOSM c then (st.1, st.2 ++ [c])
  else (stepGroups st.1 c, st.2)

/-- Function `getGroupedCandidates` from src/utils/waterBodyGrouping.ts: a single
left-to-right pass over the candidates, with the insertion-ordered `Map`
realised as a list of groups (`Array.from(groups.values())` returns the
values in key-insertion order). -/
def getGroupedCandidates (candidates : List WaterBodySearchResult)
    (showOSM : Bool) : GroupedCandidatesResult :=
  let st := candidates.foldl (step showOSM) ([], [])
  { groups := st.1, osmCandidates := st.2 }

/-- A rendered entry of `WaterBodySelectionList`: either a grouped community
water body or a flat OSM candidate. -/
inductive DisplayItem where
  | group (g : GroupedWaterBody)
  | osm (c : WaterBodySearchResult)
  deriving DecidableEq, Repr

/-- Whether a rendered entry is a community group. -/
def DisplayItem.isGroup : DisplayItem → Bool
  | .group _ => true
  | .osm _ => false

/-- The render order of `WaterBodySelectionList.tsx`: the grouped community
water bodies (`groups.map(...)`, lines 203-246) followed by the flat OSM list
(`osmCandidates.map(...)`, lines 249-274). -/
def displayOrder (r : GroupedCandidatesResult) : List DisplayItem :=
  r.groups.map DisplayItem.group ++ r.osmCandidates.map DisplayItem.osm

/-! ### Specification-side notions used by the theorems -/

/-- The grouping key the loop uses for a candidate: `some` of the
`sharedWaterBodyId` for a non-OSM candidate whose id is truthy, `none`
otherwise (OSM candidates and community candidates with a missing or empty
id contribute no group). -/
def communityKey (c : WaterBodySearchResult) : Option String :=
  if !isOSM c && strTruthy c.sharedWaterBodyId then some (c.sharedWaterBodyId.getD "")
  else none

/-- The grouping keys of all community candidates, in input order. -/
def communityIds (cands : List WaterBodySearchResult) : List String :=
  cands.filterMap communityKey

/-- First-seen deduplication of a list of keys, continuing from the
insertion-ordered list `acc` of keys already seen. -/
def firstSeenFrom (acc : List String) (l : List String) : List String :=
  l.foldl (fun seen a => if a ∈ seen then seen else seen ++ [a]) acc

/-- First-seen deduplication of a list of keys. -/
def firstSeen (l : List String) : List String :=
  firstSeenFrom [] l

/-- The section entries contributed to the group keyed `w`: one entry, in
input order, for every community candidate of that key carrying a truthy
`sectionName`. -/
def sectionsFor (cands : List WaterBodySearchResult) (w : String) :
    List GroupSection :=
  (cands.filter (fun c => communityKey c == some w && strTruthy c.sectionName)).map
    mkGroupSection

/-- The first community candidate with key `w`, in input order. -/
def firstCommunity (cands : List WaterBodySearchResult) (w : String) :
    Option WaterBodySearchResult :=
  cands.find? (fun c => communityKey c == some w)

/-- The group the grouper builds for key `w`: header fields from the first
candidate seen with that key, sections from every section-carrying candidate
with that key. -/
def groupFor (cands : List WaterBodySearchResult) (w : String) :
    Option GroupedWaterBody :=
  (firstCommunity cands w).map (fun c =>
    { waterBodyId := w, name := c.name, type := c.type, distance := c.distance,
      sections := sectionsFor cands w })

/-- Lookup of the (first) group carrying key `w`. -/
def findGroup (gs : List GroupedWaterBody) (w : String) : Option GroupedWaterBody :=
  gs.find? (fun g => g.waterBodyId == w)

/-- The keys of a group list, in order. -/
def groupKeys (gs : List GroupedWaterBody) : List String :=
  gs.map (fun g => g.waterBodyId)

/-! ### The two components of the loop state evolve independently -/

/-- The `groups` component of one loop iteration; it does not depend on the
toggle nor on the accumulated OSM list. -/
def gstep (gs : List GroupedWaterBody) (c : WaterBodySearchResult) :
    List GroupedWaterBody :=
  if isOSM c then gs else stepGroups gs c

/-- The (possibly empty) section list a single candidate contributes. -/
def sectionOf (c : WaterBodySearchResult) : List GroupSection :=
  if strTruthy c.sectionName then [mkGroupSection c] else []

/-! ### Concrete fixtures for the witnesses -/

/-- A community candidate: one water body with one section, 1000 m away. -/
def wbComm : WaterBodySearchResult :=
  { source := "shared_database", sharedWaterBodyId := some "w1", name := "Lake A",
    type := some "lake", distance := some 1000, sectionIndex := some 0,
    sectionId := some "s1", sectionName := some "Upper" }

/-- An OSM candidate that is closer (100 m) than the community candidate. -/
def wbOsm : WaterBodySearchResult :=
  { source := "osm", name := "OSM River", distance := some 100, osmId := some "way1" }

/-- The group the grouper builds for `wbComm`. -/
def wbGroup1 : GroupedWaterBody :=
  { waterBodyId := "w1", name := "Lake A", type := some "lake", distance := some 1000,
    sections := [{ sectionIndex := 0, sectionId := "s1", sectionName := "Upper",
                   candidate := wbComm }] }

/-- A legacy community candidate: `sectionName` present, `sectionId` and
`sectionIndex` absent. -/
def wbLegacy : WaterBodySearchResult :=
  { source := "shared_database", sharedWaterBodyId := some "w2", name := "Legacy Lake",
    type := some "lake", sectionName := some "Legacy Section" }

/-! ### The result sort of `waterBodyService.searchCombined` -/

namespace Service

/-- The `WaterBodySearchResult` record declared locally in
src/services/waterBodyService.ts: `type`, `id`, `name` and an optional
`distance` in meters.  The nested `sharedWaterBody` and `section` objects are
not read by the sort and are omitted. -/
structure WaterBodySearchResult where
  type : String
  id : String
  name : String
  distance : Option Rat := none
  deriving DecidableEq, Repr

/-- The comparator passed to `results.sort` in `searchCombined`
(waterBodyService.ts, `if (a.distance !== undefined && b.distance !==
undefined) return a.distance - b.distance; return 0;`). -/
def sortCompare (a b : WaterBodySearchResult) : Rat :=
  match a.distance, b.distance with
  | some x, some y => x - y
  | _, _ => 0

/-- The earlier comparator of the same sort,
`(a.distance || 0) - (b.distance || 0)`. -/
def sortCompareLegacy (a b : WaterBodySearchResult) : Rat :=
  numOrZero a.distance - numOrZero b.distance

/-- Insert `a` in front of the first element `b` of the already-processed
list with `le a b`; used to realise a stable comparison sort. -/
def sortInsert (le : α → α → Bool) (a : α) : List α → List α
  | [] => [a]
  | b :: l => if le a b then a :: b :: l else b :: sortInsert le a l

/-- A stable comparison sort, modelling `Array.prototype.sort` (required to
be stable since ES2019).  `le a b` means the comparator returned `≤ 0` on
`(a, b)`.  For a consistent comparator this is the unique stable order; for
an inconsistent comparator ECMA-262 leaves the order implementation-defined
and this is one conforming stable sort. -/
def stableSort (le : α → α → Bool) : List α → List α
  | [] => []
  | a :: l => sortInsert le a (stableSort le l)

/-- The call of `results.sort` with the comparator above, from `searchCombined`. -/
def sortResults (l : List WaterBodySearchResult) : List WaterBodySearchResult :=
  stableSort (fun a b => sortCompare a b ≤ 0) l

/-- The same sort with the earlier comparator. -/
def sortResultsLegacy (l : List WaterBodySearchResult) : List WaterBodySearchResult :=
  stableSort (fun a b => sortCompareLegacy a b ≤ 0) l

/-- A result without a `distance` (no coordinate was available). -/
def srNoDist : WaterBodySearchResult :=
  { type := "shared", id := "A", name := "No Coordinate Lake" }

/-- A result with a small distance. -/
def srNear : WaterBodySearchResult :=
  { type := "shared", id := "B", name := "Near Lake", distance := some 5 }

/-! ### `formatDistance` -/

/-- JavaScript `Math.round` on the exact value of its argument (ECMA-262: the closest
integer, the one closer to positive infinity on ties), i.e. `⌊q + 1/2⌋`. -/
def jsRound (q : Rat) : Int :=
  ⌊q + 1 / 2⌋

/-- JavaScript `toFixed(1)` for a non-negative number per ECMA-262: the integer `n`
minimising the distance of `n / 10` to the value, the larger one on ties,
rendered with exactly one digit after the decimal point. -/
def toFixed1 (q : Rat) : String :=
  let k := (⌊q * 10 + 1 / 2⌋).toNat
  toString (k / 10) ++ "." ++ toString (k % 10)

/-- Function `formatDistance` from src/services/waterBodyService.ts (the identical
helper also appears in WaterBodySelectionList.tsx lines 80-85): below 1000
the rounded meter value suffixed `m`, from 1000 on the value in kilometers
with one decimal place suffixed `km`. -/
def formatDistance (meters : Rat) : String :=
  if meters < 1000 then toString (jsRound meters) ++ "m"
  else toFixed1 (meters / 1000) ++ "km"

/-! ### `calculateDistance` (haversine) -/

/-- JavaScript `Math.atan2` on the exact value of finite arguments (ECMA-262 case
analysis). -/
noncomputable def jsAtan2 (y x : Real) : Real :=
  if 0 < x then Real.arctan (y / x)
  else if x < 0 then
    (if 0 ≤ y then Real.arctan (y / x) + Real.pi else Real.arctan (y / x) - Real.pi)
  else
    (if 0 < y then Real.pi / 2 else if y < 0 then -(Real.pi / 2) else 0)

/-- Function `calculateDistance` from src/services/waterBodyService.ts: `R = 6371e3`,
degree-to-radian conversions, the haversine intermediate
`a = sin²(Δφ/2) + cos φ1 · cos φ2 · sin²(Δλ/2)` written with explicit
products as in the source, and `c = 2 · atan2(√a, √(1-a))`. -/
noncomputable def calculateDistance (lat1 lon1 lat2 lon2 : Real) : Real :=
  let R : Real := 6371000
  let phi1 := lat1 * Real.pi / 180
  let phi2 := lat2 * Real.pi / 180
  let dphi := (lat2 - lat1) * Real.pi / 180
  let dlam := (lon2 - lon1) * Real.pi / 180
  let a := Real.sin (dphi / 2) * Real.sin (dphi / 2) +
    Real.cos phi1 * Real.cos phi2 * Real.sin (dlam / 2) * Real.sin (dlam / 2)
  let c := 2 * jsAtan2 (Real.sqrt a) (Real.sqrt (1 - a))
  R * c

/-- The great-circle distance described by the spec (section 4.3), written
from the spec's words: the haversine formula with mean Earth radius
6,371,000 m, `d = 2 R arcsin √hav` for inputs in degrees. -/
noncomputable def haversineDistance (lat1 lon1 lat2 lon2 : Real) : Real :=
  let R : Real := 6371000
  let phi1 := lat1 * Real.pi / 180
  let phi2 := lat2 * Real.pi / 180
  let dphi := (lat2 - lat1) * Real.pi / 180
  let dlam := (lon2 - lon1) * Real.pi / 180
  let hav := Real.sin (dphi / 2) ^ 2 +
    Real.cos phi1 * Real.cos phi2 * Real.sin (dlam / 2) ^ 2
  2 * R * Real.arcsin (Real.sqrt hav)

end Service

theorem step_fst (b : Bool) (st : List GroupedWaterBody × List WaterBodySearchResult)
    (c : WaterBodySearchResult) : (step b st c).1 = gstep st.1 c := by
  unfold step gstep
  by_cases h : isOSM c <;> by_cases hb : b <;> simp [h, hb]

theorem foldl_step_fst (b : Bool) (cands : List WaterBodySearchResult) :
    ∀ st, (cands.foldl (step b) st).1 = cands.foldl gstep st.1 := by
  induction cands with
  | nil => intro st; rfl
  | cons c cs ih => intro st; rw [List.foldl_cons, List.foldl_cons, ih, step_fst]

theorem foldl_step_snd_true (cands : List WaterBodySearchResult) :
    ∀ st, (cands.foldl (step true) st).2 = st.2 ++ cands.filter isOSM := by
  induction cands with
  | nil => intro st; simp
  | cons c cs ih =>
    intro st
    rw [List.foldl_cons, ih, List.filter_cons]
    by_cases h : isOSM c
    · simp [step, h, List.append_assoc]
    · simp [step, h]

theorem foldl_step_snd_false (cands : List WaterBodySearchResult) :
    ∀ st, (cands.foldl (step false) st).2 = st.2 := by
  induction cands with
  | nil => intro st; rfl
  | cons c cs ih =>
    intro st
    rw [List.foldl_cons, ih]
    by_cases h : isOSM c <;> simp [step, h]

theorem groups_eq_foldl (cands : List WaterBodySearchResult) (b : Bool) :
    (getGroupedCandidates cands b).groups = cands.foldl gstep [] := by
  unfold getGroupedCandidates
  exact foldl_step_fst b cands ([], [])

theorem osmCandidates_true (cands : List WaterBodySearchResult) :
    (getGroupedCandidates cands true).osmCandidates = cands.filter isOSM := by
  unfold getGroupedCandidates
  simpa using foldl_step_snd_true cands ([], [])

theorem osmCandidates_false (cands : List WaterBodySearchResult) :
    (getGroupedCandidates cands false).osmCandidates = [] := by
  unfold getGroupedCandidates
  exact foldl_step_snd_false cands ([], [])

/-! ### Basic lemmas about the group-list operations -/

theorem addSection_eq (g : GroupedWaterBody) (c : WaterBodySearchResult) :
    addSection g c = { g with sections := g.sections ++ sectionOf c } := by
  unfold addSection sectionOf
  split
  · rfl
  · simp

theorem addSection_waterBodyId (g : GroupedWaterBody) (c : WaterBodySearchResult) :
    (addSection g c).waterBodyId = g.waterBodyId := by
  rw [addSection_eq]

theorem communityKey_eq_some {c : WaterBodySearchResult} {v : String}
    (h : communityKey c = some v) :
    isOSM c = false ∧ strTruthy c.sharedWaterBodyId = true ∧
      c.sharedWaterBodyId.getD "" = v := by
  unfold communityKey at h
  split at h
  · next hc =>
    simp only [Bool.and_eq_true, Bool.not_eq_true'] at hc
    exact ⟨hc.1, hc.2, by injection h⟩
  · exact absurd h (by simp)

theorem gstep_of_key_none {c : WaterBodySearchResult}
    (h : communityKey c = none) (gs : List GroupedWaterBody) :
    gstep gs c = gs := by
  unfold gstep stepGroups
  by_cases hosm : isOSM c
  · simp [hosm]
  · have ht : strTruthy c.sharedWaterBodyId = false := by
      unfold communityKey at h
      by_contra hcon
      rw [Bool.not_eq_false] at hcon
      simp [hosm, hcon] at h
    simp [hosm, ht]

theorem gstep_of_key_some {c : WaterBodySearchResult} {v : String}
    (h : communityKey c = some v) (gs : List GroupedWaterBody) :
    gstep gs c =
      updateFirst c v (if hasGroup gs v then gs else gs ++ [newGroup v c]) := by
  obtain ⟨hosm, ht, hv⟩ := communityKey_eq_some h
  unfold gstep stepGroups
  simp [hosm, ht, hv]

theorem groupKeys_updateFirst (c : WaterBodySearchResult) (w : String) :
    ∀ gs, groupKeys (updateFirst c w gs) = groupKeys gs := by
  intro gs
  induction gs with
  | nil => rfl
  | cons g gs ih =>
    unfold updateFirst
    split
    · simp [groupKeys, addSection_waterBodyId]
    · simpa [groupKeys] using ih

theorem findGroup_nil (w : String) : findGroup [] w = none := rfl

theorem findGroup_cons (g : GroupedWaterBody) (gs : List GroupedWaterBody) (w : String) :
    findGroup (g :: gs) w =
      if g.waterBodyId == w then some g else findGroup gs w := by
  unfold findGroup
  by_cases h : g.waterBodyId == w <;> simp [List.find?_cons, h]

theorem hasGroup_eq_isSome_findGroup (gs : List GroupedWaterBody) (w : String) :
    hasGroup gs w = (findGroup gs w).isSome := by
  induction gs with
  | nil => rfl
  | cons g gs ih =>
    rw [findGroup_cons]
    unfold hasGroup at ih ⊢
    by_cases h : g.waterBodyId == w <;> simp [h, ih]

theorem findGroup_updateFirst (c : WaterBodySearchResult) (v w : String) :
    ∀ gs, findGroup (updateFirst c v gs) w =
      if v = w then (findGroup gs w).map (fun g => addSection g c)
      else findGroup gs w := by
  intro gs
  induction gs with
  | nil =>
    simp [updateFirst, findGroup_nil]
  | cons g gs ih =>
    unfold updateFirst
    by_cases h : g.waterBodyId == v
    · have hgv : g.waterBodyId = v := by simpa using h
      simp only [h, if_pos]
      rw [findGroup_cons, findGroup_cons, addSection_waterBodyId]
      by_cases hw : g.waterBodyId == w
      · have hvw : v = w := by subst hgv; simpa using hw
        simp [hw, hvw]
      · have hvw : v ≠ w := by
          subst hgv
          simpa using hw
        simp [hw, hvw]
    · simp only [h, if_neg, Bool.false_eq_true, not_false_iff]
      rw [findGroup_cons, findGroup_cons]
      by_cases hw : g.waterBodyId == w
      · have hvw : v ≠ w := by
          intro hvweq
          subst hvweq
          exact h hw
        simp [hw, hvw]
      · simp only [hw, Bool.false_eq_true, if_neg, not_false_iff]
        exact ih

theorem findGroup_append_single (gs : List GroupedWaterBody) (g0 : GroupedWaterBody)
    (w : String) :
    findGroup (gs ++ [g0]) w =
      match findGroup gs w with
      | some g => some g
      | none => if g0.waterBodyId == w then some g0 else none := by
  induction gs with
  | nil => simp [findGroup_nil, findGroup_cons]
  | cons g gs ih =>
    rw [List.cons_append, findGroup_cons, findGroup_cons]
    by_cases h : g.waterBodyId == w <;> simp [h, ih]

/-! ### The keys of the accumulated groups follow first-seen order -/

theorem hasGroup_iff_mem_groupKeys (gs : List GroupedWaterBody) (w : String) :
    hasGroup gs w = true ↔ w ∈ groupKeys gs := by
  unfold hasGroup groupKeys
  simp [List.any_eq_true, beq_iff_eq, List.mem_map]

theorem groupKeys_foldl_gstep :
    ∀ (cands : List WaterBodySearchResult) (gs : List GroupedWaterBody),
    groupKeys (cands.foldl gstep gs) = firstSeenFrom (groupKeys gs) (communityIds cands) := by
  intro cands
  induction cands with
  | nil => intro gs; rfl
  | cons c cs ih =>
    intro gs
    rw [List.foldl_cons]
    cases hk : communityKey c with
    | none =>
      rw [gstep_of_key_none hk, ih]
      unfold communityIds
      rw [List.filterMap_cons, hk]
    | some v =>
      rw [gstep_of_key_some hk, ih]
      unfold communityIds
      rw [List.filterMap_cons, hk]
      rw [groupKeys_updateFirst]
      unfold firstSeenFrom
      rw [List.foldl_cons]
      by_cases hmem : v ∈ groupKeys gs
      · have hh : hasGroup gs v = true := (hasGroup_iff_mem_groupKeys gs v).mpr hmem
        simp [hh, hmem]
      · have hh : hasGroup gs v = false := by
          rw [← Bool.not_eq_true, hasGroup_iff_mem_groupKeys]
          exact hmem
        simp only [hh, Bool.false_eq_true, if_neg, not_false_iff, hmem]
        have hkeys : groupKeys (gs ++ [newGroup v c]) = groupKeys gs ++ [v] := by
          unfold groupKeys
          simp [newGroup]
        rw [hkeys]

/-! ### Characterization of the group built for each key -/

theorem findGroup_foldl_gstep (w : String) :
    ∀ (cands : List WaterBodySearchResult) (gs : List GroupedWaterBody),
    findGroup (cands.foldl gstep gs) w =
      match findGroup gs w with
      | some g => some { g with sections := g.sections ++ sectionsFor cands w }
      | none => groupFor cands w := by
  intro cands
  induction cands with
  | nil =>
    intro gs
    cases h : findGroup gs w <;> simp [h, sectionsFor, groupFor, firstCommunity]
  | cons c cs ih =>
    intro gs
    rw [List.foldl_cons]
    cases hk : communityKey c with
    | none =>
      rw [gstep_of_key_none hk, ih]
      have hkey : (communityKey c == some w) = false := by simp [hk]
      have hsec : sectionsFor (c :: cs) w = sectionsFor cs w := by
        unfold sectionsFor
        rw [List.filter_cons]
        simp [hkey]
      have hfc : firstCommunity (c :: cs) w = firstCommunity cs w := by
        unfold firstCommunity
        rw [List.find?_cons]
        simp [hkey]
      have hgf : groupFor (c :: cs) w = groupFor cs w := by
        unfold groupFor
        rw [hfc, hsec]
      rw [hsec, hgf]
    | some v =>
      rw [gstep_of_key_some hk, ih]
      by_cases hvw : v = w
      · subst hvw
        have hkey : (communityKey c == some v) = true := by simp [hk]
        have hsec : sectionsFor (c :: cs) v = sectionOf c ++ sectionsFor cs v := by
          unfold sectionsFor sectionOf
          rw [List.filter_cons]
          by_cases hname : strTruthy c.sectionName <;> simp [hkey, hname]
        have hfc : firstCommunity (c :: cs) v = some c := by
          unfold firstCommunity
          rw [List.find?_cons]
          simp [hkey]
        cases hg : findGroup gs v with
        | some g =>
          have hh : hasGroup gs v = true := by
            rw [hasGroup_eq_isSome_findGroup, hg]
            rfl
          rw [hh, if_pos rfl, findGroup_updateFirst, if_pos rfl, hg]
          simp only [Option.map_some']
          rw [addSection_eq, hsec]
          simp [List.append_assoc]
        | none =>
          have hh : hasGroup gs v = false := by
            rw [hasGroup_eq_isSome_findGroup, hg]
            rfl
          rw [hh]
          simp only [Bool.false_eq_true, if_neg, not_false_iff]
          rw [findGroup_updateFirst, if_pos rfl, findGroup_append_single, hg]
          have hng : ((newGroup v c).waterBodyId == v) = true := by simp [newGroup]
          unfold groupFor
          rw [hfc, hsec]
          simp [hng, addSection_eq, newGroup]
      · have hfg :
            findGroup (updateFirst c v
              (if hasGroup gs v then gs else gs ++ [newGroup v c])) w =
              findGroup gs w := by
          rw [findGroup_updateFirst, if_neg hvw]
          by_cases hh : hasGroup gs v
          · rw [if_pos hh]
          · rw [if_neg hh, findGroup_append_single]
            have hng : ((newGroup v c).waterBodyId == w) = false := by
              simp [newGroup, hvw]
            cases hgg : findGroup gs w <;> simp [hgg, hng]
        rw [hfg]
        have hkey : (communityKey c == some w) = false := by simp [hk, hvw]
        have hsec : sectionsFor (c :: cs) w = sectionsFor cs w := by
          unfold sectionsFor
          rw [List.filter_cons]
          simp [hkey]
        have hfc : firstCommunity (c :: cs) w = firstCommunity cs w := by
          unfold firstCommunity
          rw [List.find?_cons]
          simp [hkey]
        have hgf : groupFor (c :: cs) w = groupFor cs w := by
          unfold groupFor
          rw [hfc, hsec]
        rw [hsec, hgf]

/-! ### Properties of first-seen deduplication -/

theorem firstSeenFrom_cons (acc : List String) (a : String) (l : List String) :
    firstSeenFrom acc (a :: l) =
      firstSeenFrom (if a ∈ acc then acc else acc ++ [a]) l := rfl

theorem mem_firstSeenFrom :
    ∀ (l acc : List String) (x : String), x ∈ firstSeenFrom acc l ↔ x ∈ acc ∨ x ∈ l := by
  intro l
  induction l with
  | nil => simp [firstSeenFrom]
  | cons a l ih =>
    intro acc x
    rw [firstSeenFrom_cons, ih]
    by_cases h : a ∈ acc
    · simp only [h, if_pos, List.mem_cons]
      constructor
      · rintro (h1 | h2)
        · exact Or.inl h1
        · exact Or.inr (Or.inr h2)
      · rintro (h1 | rfl | h2)
        · exact Or.inl h1
        · exact Or.inl h
        · exact Or.inr h2
    · simp only [h, if_neg, not_false_iff, List.mem_append, List.mem_singleton,
        List.mem_cons]
      tauto

theorem nodup_firstSeenFrom :
    ∀ (l acc : List String), acc.Nodup → (firstSeenFrom acc l).Nodup := by
  intro l
  induction l with
  | nil => intro acc h; exact h
  | cons a l ih =>
    intro acc h
    rw [firstSeenFrom_cons]
    apply ih
    by_cases hmem : a ∈ acc
    · simpa [hmem] using h
    · simp only [hmem, if_neg, not_false_iff]
      rw [List.nodup_append]
      exact ⟨h, List.nodup_singleton a, by simpa [List.disjoint_singleton] using hmem⟩

theorem nodup_firstSeen (l : List String) : (firstSeen l).Nodup :=
  nodup_firstSeenFrom l [] List.nodup_nil

theorem mem_firstSeen (l : List String) (x : String) : x ∈ firstSeen l ↔ x ∈ l := by
  unfold firstSeen
  rw [mem_firstSeenFrom]
  simp

theorem toFinset_firstSeen (l : List String) : (firstSeen l).toFinset = l.toFinset := by
  ext x
  simp [List.mem_toFinset, mem_firstSeen]

theorem length_firstSeen (l : List String) : (firstSeen l).length = l.toFinset.card := by
  rw [← toFinset_firstSeen]
  exact (List.toFinset_card_of_nodup (nodup_firstSeen l)).symm

/-! ### The grouper output, characterized -/

theorem groupKeys_getGroupedCandidates (cands : List WaterBodySearchResult) (b : Bool) :
    groupKeys (getGroupedCandidates cands b).groups = firstSeen (communityIds cands) := by
  rw [groups_eq_foldl, groupKeys_foldl_gstep]
  rfl

theorem findGroup_getGroupedCandidates (cands : List WaterBodySearchResult) (b : Bool)
    (w : String) :
    findGroup (getGroupedCandidates cands b).groups w = groupFor cands w := by
  rw [groups_eq_foldl, findGroup_foldl_gstep, findGroup_nil]

theorem nodup_groupKeys (cands : List WaterBodySearchResult) (b : Bool) :
    (groupKeys (getGroupedCandidates cands b).groups).Nodup := by
  rw [groupKeys_getGroupedCandidates]
  exact nodup_firstSeen _

theorem findGroup_eq_of_mem :
    ∀ {gs : List GroupedWaterBody}, (groupKeys gs).Nodup →
      ∀ {g : GroupedWaterBody}, g ∈ gs → findGroup gs g.waterBodyId = some g := by
  intro gs
  induction gs with
  | nil => intro _ g hg; cases hg
  | cons g0 gs ih =>
    intro h g hg
    have h0 : g0.waterBodyId ∉ groupKeys gs := by
      have := h
      unfold groupKeys at this
      rw [List.map_cons, List.nodup_cons] at this
      exact this.1
    have htail : (groupKeys gs).Nodup := by
      have := h
      unfold groupKeys at this
      rw [List.map_cons, List.nodup_cons] at this
      exact this.2
    rw [findGroup_cons]
    rcases List.mem_cons.mp hg with rfl | hmem
    · simp
    · have hne : (g0.waterBodyId == g.waterBodyId) = false := by
        have : g.waterBodyId ∈ groupKeys gs := List.mem_map.mpr ⟨g, hmem, rfl⟩
        by_contra hcon
        rw [Bool.not_eq_false, beq_iff_eq] at hcon
        exact h0 (hcon ▸ this)
      rw [hne]
      simp only [Bool.false_eq_true, if_neg, not_false_iff]
      exact ih htail hmem

/-- Every group in the output is the canonical group for its key. -/
theorem mem_groups_canonical {cands : List WaterBodySearchResult} {b : Bool}
    {g : GroupedWaterBody} (hg : g ∈ (getGroupedCandidates cands b).groups) :
    groupFor cands g.waterBodyId = some g := by
  rw [← findGroup_getGroupedCandidates cands b]
  exact findGroup_eq_of_mem (nodup_groupKeys cands b) hg

/-- Conversely, every community key present in the input has its canonical
group in the output. -/
theorem groupFor_mem_groups {cands : List WaterBodySearchResult} (b : Bool)
    {w : String} {g : GroupedWaterBody} (h : groupFor cands w = some g) :
    g ∈ (getGroupedCandidates cands b).groups := by
  have := findGroup_getGroupedCandidates cands b w
  rw [h] at this
  exact List.mem_of_find?_eq_some this

/-- Every group in the output: its header fields come from the first community
candidate with its key, its sections are exactly the canonical section list. -/
theorem mem_groups_fields {cands : List WaterBodySearchResult} {b : Bool}
    {g : GroupedWaterBody} (hg : g ∈ (getGroupedCandidates cands b).groups) :
    ∃ c0, firstCommunity cands g.waterBodyId = some c0 ∧
      g.name = c0.name ∧ g.type = c0.type ∧ g.distance = c0.distance ∧
      g.sections = sectionsFor cands g.waterBodyId := by
  have h := mem_groups_canonical hg
  unfold groupFor at h
  cases hfc : firstCommunity cands g.waterBodyId with
  | none =>
    rw [hfc] at h
    simp at h
  | some c0 =>
    rw [hfc] at h
    simp only [Option.map_some'] at h
    have hrec := Option.some.inj h
    refine ⟨c0, rfl, ?_, ?_, ?_, ?_⟩ <;> rw [← hrec]

theorem mkGroupSection_mem_sectionsFor {cands : List WaterBodySearchResult}
    {c : WaterBodySearchResult} {w : String} (hc : c ∈ cands)
    (hk : communityKey c = some w) (hs : strTruthy c.sectionName = true) :
    mkGroupSection c ∈ sectionsFor cands w := by
  unfold sectionsFor
  exact List.mem_map.mpr ⟨c, List.mem_filter.mpr ⟨hc, by simp [hk, hs]⟩, rfl⟩

theorem firstCommunity_append_of_some {cands : List WaterBodySearchResult}
    {w : String} {c0 : WaterBodySearchResult}
    (h : firstCommunity cands w = some c0) (more : List WaterBodySearchResult) :
    firstCommunity (cands ++ more) w = some c0 := by
  unfold firstCommunity at h ⊢
  induction cands with
  | nil => simp [List.find?_nil] at h
  | cons c cs ih =>
    rw [List.cons_append]
    rw [List.find?_cons] at h ⊢
    cases hp : (communityKey c == some w) with
    | true => simpa [hp] using h
    | false =>
      simp only [hp] at h ⊢
      exact ih h

theorem sectionsFor_append (cands more : List WaterBodySearchResult) (w : String) :
    sectionsFor (cands ++ more) w = sectionsFor cands w ++ sectionsFor more w := by
  unfold sectionsFor
  rw [List.filter_append, List.map_append]

/-! ### Claim theorems: grouping -/

/-- C2: for every input, the grouper yields exactly one group per distinct
(truthy) `waterBodyId` among the community candidates: the group keys are the
first-seen deduplication of the community keys (hence pairwise distinct and in
first-seen input order), and the number of groups equals the number of
distinct community keys. -/
theorem claim_grouping_key_uniqueness (cands : List WaterBodySearchResult) (b : Bool) :
    groupKeys (getGroupedCandidates cands b).groups = firstSeen (communityIds cands) ∧
    (groupKeys (getGroupedCandidates cands b).groups).Nodup ∧
    (getGroupedCandidates cands b).groups.length = (communityIds cands).toFinset.card ∧
    (∀ w, w ∈ groupKeys (getGroupedCandidates cands b).groups ↔ w ∈ communityIds cands) := by
  refine ⟨groupKeys_getGroupedCandidates cands b, nodup_groupKeys cands b, ?_, ?_⟩
  · have hlen : (getGroupedCandidates cands b).groups.length =
        (groupKeys (getGroupedCandidates cands b).groups).length := by
      unfold groupKeys
      rw [List.length_map]
    rw [hlen, groupKeys_getGroupedCandidates, length_firstSeen]
  · intro w
    rw [groupKeys_getGroupedCandidates, mem_firstSeen]

/-- C4: with the toggle off the grouper returns no OSM candidates at all, and
with the toggle on it returns exactly the OSM-provenance subsequence of the
input, in input order and without any deduplication. -/
theorem claim_toggle_behavior (cands : List WaterBodySearchResult) :
    (getGroupedCandidates cands false).osmCandidates = [] ∧
    (getGroupedCandidates cands true).osmCandidates = cands.filter isOSM :=
  ⟨osmCandidates_false cands, osmCandidates_true cands⟩

/-- C10: the `groups` component of the grouper output does not depend on the
`showOSM` toggle at all (noninterference of the toggle with the community
grouping). -/
theorem claim_toggle_noninterference (cands : List WaterBodySearchResult)
    (b1 b2 : Bool) :
    (getGroupedCandidates cands b1).groups = (getGroupedCandidates cands b2).groups := by
  rw [groups_eq_foldl, groups_eq_foldl]

/-- C5: the sections of every output group are exactly one entry per
community candidate of that key carrying a truthy `sectionName`, in input
order, with no deduplication of repeated names; candidates without a
`sectionName` contribute no entry. -/
theorem claim_section_insertion_order (cands : List WaterBodySearchResult) (b : Bool)
    (g : GroupedWaterBody) (hg : g ∈ (getGroupedCandidates cands b).groups) :
    g.sections = sectionsFor cands g.waterBodyId ∧
    g.sections.map (fun s => s.candidate) =
      cands.filter
        (fun c => communityKey c == some g.waterBodyId && strTruthy c.sectionName) := by
  obtain ⟨c0, -, -, -, -, hsec⟩ := mem_groups_fields hg
  refine ⟨hsec, ?_⟩
  rw [hsec]
  unfold sectionsFor
  rw [List.map_map]
  have : ((fun s : GroupSection => s.candidate) ∘ mkGroupSection) = fun c => c := by
    funext c
    rfl
  rw [this, List.map_id']

/-- C7: the header fields (`name`, `type`, `distance`) of every output group
are those of the first community candidate seen for its key, and processing
further candidates (appending more input) leaves the key and header fields of
existing groups unchanged, only ever extending the section list. -/
theorem claim_group_header_first_seen :
    (∀ (cands : List WaterBodySearchResult) (b : Bool) (g : GroupedWaterBody),
       g ∈ (getGroupedCandidates cands b).groups →
       ∃ c0, firstCommunity cands g.waterBodyId = some c0 ∧
         g.name = c0.name ∧ g.type = c0.type ∧ g.distance = c0.distance) ∧
    (∀ (cands : List WaterBodySearchResult) (b : Bool) (c : WaterBodySearchResult)
       (g : GroupedWaterBody),
       g ∈ (getGroupedCandidates cands b).groups →
       ∃ g2, g2 ∈ (getGroupedCandidates (cands ++ [c]) b).groups ∧
         g2.waterBodyId = g.waterBodyId ∧ g2.name = g.name ∧ g2.type = g.type ∧
         g2.distance = g.distance ∧ ∃ t, g2.sections = g.sections ++ t) := by
  constructor
  · intro cands b g hg
    obtain ⟨c0, hfc, hname, htype, hdist, -⟩ := mem_groups_fields hg
    exact ⟨c0, hfc, hname, htype, hdist⟩
  · intro cands b c g hg
    obtain ⟨c0, hfc, hname, htype, hdist, hsec⟩ := mem_groups_fields hg
    have hfc2 : firstCommunity (cands ++ [c]) g.waterBodyId = some c0 :=
      firstCommunity_append_of_some hfc [c]
    have hgf2 : groupFor (cands ++ [c]) g.waterBodyId =
        some { waterBodyId := g.waterBodyId, name := c0.name, type := c0.type,
               distance := c0.distance,
               sections := sectionsFor (cands ++ [c]) g.waterBodyId } := by
      unfold groupFor
      rw [hfc2]
      rfl
    refine ⟨_, groupFor_mem_groups b hgf2, rfl, hname.symm ▸ rfl, htype.symm ▸ rfl,
      hdist.symm ▸ rfl, sectionsFor [c] g.waterBodyId, ?_⟩
    rw [sectionsFor_append, hsec]

/-- C6: a community candidate with a truthy `sectionName` but no `sectionId`
(and no `sectionIndex`) still yields a section entry, with `sectionId = ""`
and `sectionIndex = 0`; and a non-OSM candidate with a falsy
`sharedWaterBodyId` is skipped silently: removing it from the input leaves
the grouper output unchanged. -/
theorem claim_legacy_tolerance :
    (∀ (cands : List WaterBodySearchResult) (b : Bool) (c : WaterBodySearchResult)
       (w s : String), c ∈ cands → communityKey c = some w →
       c.sectionName = some s → s ≠ "" → c.sectionId = none → c.sectionIndex = none →
       ∃ g, g ∈ (getGroupedCandidates cands b).groups ∧ g.waterBodyId = w ∧
         ({ sectionIndex := 0, sectionId := "", sectionName := s, candidate := c } :
           GroupSection) ∈ g.sections) ∧
    (∀ (xs ys : List WaterBodySearchResult) (b : Bool) (c : WaterBodySearchResult),
       isOSM c = false → strTruthy c.sharedWaterBodyId = false →
       getGroupedCandidates (xs ++ c :: ys) b = getGroupedCandidates (xs ++ ys) b) := by
  constructor
  · intro cands b c w s hc hk hs hsne hid hidx
    have hst : strTruthy c.sectionName = true := by
      rw [hs]
      unfold strTruthy
      simpa using hsne
    have hw : w ∈ communityIds cands := by
      unfold communityIds
      exact List.mem_filterMap.mpr ⟨c, hc, hk⟩
    have hwk : w ∈ groupKeys (getGroupedCandidates cands b).groups := by
      rw [groupKeys_getGroupedCandidates, mem_firstSeen]
      exact hw
    obtain ⟨g, hgmem, hgid⟩ := List.mem_map.mp hwk
    obtain ⟨c0, -, -, -, -, hsec⟩ := mem_groups_fields hgmem
    refine ⟨g, hgmem, hgid, ?_⟩
    have hmk : mkGroupSection c =
        { sectionIndex := 0, sectionId := "", sectionName := s, candidate := c } := by
      unfold mkGroupSection numOrZero strOrEmpty
      rw [hid, hidx, hs]
      simp [hsne]
    rw [← hmk, hsec, hgid]
    exact mkGroupSection_mem_sectionsFor hc hk hst
  · intro xs ys b c hosm ht
    have hskip : ∀ st, step b st c = st := by
      intro st
      unfold step stepGroups
      simp [hosm, ht]
    unfold getGroupedCandidates
    rw [List.foldl_append, List.foldl_cons, hskip, ← List.foldl_append]

/-- C1: in the rendered order of `WaterBodySelectionList`, every community
group strictly precedes every OSM candidate, for every input and toggle value
(so regardless of all distance values). -/
theorem claim_partition_precedence (cands : List WaterBodySearchResult) (b : Bool)
    (i j : Nat) (di dj : DisplayItem)
    (hi : (displayOrder (getGroupedCandidates cands b))[i]? = some di)
    (hj : (displayOrder (getGroupedCandidates cands b))[j]? = some dj)
    (hgi : di.isGroup = true) (hgj : dj.isGroup = false) : i < j := by
  have hmap1 : ∀ d, d ∈ (getGroupedCandidates cands b).groups.map DisplayItem.group →
      d.isGroup = true := by
    intro d hd
    obtain ⟨g, -, rfl⟩ := List.mem_map.mp hd
    rfl
  have hmap2 : ∀ d,
      d ∈ (getGroupedCandidates cands b).osmCandidates.map DisplayItem.osm →
      d.isGroup = false := by
    intro d hd
    obtain ⟨c, -, rfl⟩ := List.mem_map.mp hd
    rfl
  have hi' : i < ((getGroupedCandidates cands b).groups.map DisplayItem.group).length := by
    by_contra hcon
    push_neg at hcon
    unfold displayOrder at hi
    rw [List.getElem?_append_right hcon] at hi
    have hmem : di ∈ (getGroupedCandidates cands b).osmCandidates.map DisplayItem.osm := by
      obtain ⟨hlt, heq⟩ := List.getElem?_eq_some.mp hi
      exact heq ▸ List.getElem_mem hlt
    rw [hmap2 di hmem] at hgi
    cases hgi
  have hj' : ((getGroupedCandidates cands b).groups.map DisplayItem.group).length ≤ j := by
    by_contra hcon
    push_neg at hcon
    unfold displayOrder at hj
    rw [List.getElem?_append, if_pos hcon] at hj
    obtain ⟨hlt, heq⟩ := List.getElem?_eq_some.mp hj
    have hmem : dj ∈ (getGroupedCandidates cands b).groups.map DisplayItem.group :=
      heq ▸ List.getElem_mem hlt
    rw [hmap1 dj hmem] at hgj
    cases hgj
  omega

/-- Witness for C1: a concrete two-candidate input where the OSM candidate is
closer (100 m vs 1000 m) and still renders after the community group. -/
theorem claim_partition_precedence_witness :
    (displayOrder (getGroupedCandidates [wbComm, wbOsm] true))[0]? =
        some (DisplayItem.group wbGroup1) ∧
    (displayOrder (getGroupedCandidates [wbComm, wbOsm] true))[1]? =
        some (DisplayItem.osm wbOsm) ∧ (0 : Nat) < 1 :=
  ⟨by decide, by decide,
   claim_partition_precedence [wbComm, wbOsm] true 0 1 (DisplayItem.group wbGroup1)
     (DisplayItem.osm wbOsm) (by decide) (by decide) rfl rfl⟩

/-- Witness for C5 at a concrete input. -/
theorem claim_section_insertion_order_witness :
    wbGroup1.sections = sectionsFor [wbComm, wbOsm] wbGroup1.waterBodyId ∧
    wbGroup1.sections.map (fun s => s.candidate) =
      List.filter
        (fun c => communityKey c == some wbGroup1.waterBodyId && strTruthy c.sectionName)
        [wbComm, wbOsm] :=
  claim_section_insertion_order [wbComm, wbOsm] true wbGroup1 (by decide)

/-- Witness for C7 at a concrete input. -/
theorem claim_group_header_first_seen_witness :
    ∃ c0, firstCommunity [wbComm, wbOsm] wbGroup1.waterBodyId = some c0 ∧
      wbGroup1.name = c0.name ∧ wbGroup1.type = c0.type ∧
      wbGroup1.distance = c0.distance :=
  claim_group_header_first_seen.1 [wbComm, wbOsm] true wbGroup1 (by decide)

/-- Witness for C6 at a concrete legacy input. -/
theorem claim_legacy_tolerance_witness :
    ∃ g, g ∈ (getGroupedCandidates [wbLegacy] true).groups ∧ g.waterBodyId = "w2" ∧
      ({ sectionIndex := 0, sectionId := "", sectionName := "Legacy Section",
         candidate := wbLegacy } : GroupSection) ∈ g.sections :=
  claim_legacy_tolerance.1 [wbLegacy] true wbLegacy "w2" "Legacy Section" (by decide)
    (by decide) (by decide) (by decide) (by decide) (by decide)

namespace Service

theorem sortInsert_front {le : α → α → Bool} {a : α} (h : ∀ b, le a b = true) :
    ∀ l, sortInsert le a l = a :: l := by
  intro l
  cases l with
  | nil => rfl
  | cons b l => simp [sortInsert, h b]

theorem filter_sortInsert_neg {p : α → Bool} {a : α} (hp : p a = false)
    (le : α → α → Bool) :
    ∀ l, (sortInsert le a l).filter p = l.filter p := by
  intro l
  induction l with
  | nil => simp [sortInsert, hp]
  | cons b l ih =>
    unfold sortInsert
    by_cases hle : le a b
    · simp [hle, List.filter_cons, hp]
    · simp only [hle, Bool.false_eq_true, if_neg, not_false_iff]
      rw [List.filter_cons, List.filter_cons, ih]

/-- Elements on which the comparator never reports an order (here: on which
`le` holds against everything) are left exactly where the stable sort found
them: the filtered subsequence is unchanged. -/
theorem filter_stableSort {p : α → Bool} {le : α → α → Bool}
    (hfront : ∀ x, p x = true → ∀ y, le x y = true) :
    ∀ l, (stableSort le l).filter p = l.filter p := by
  intro l
  induction l with
  | nil => rfl
  | cons a l ih =>
    unfold stableSort
    by_cases hp : p a
    · rw [sortInsert_front (hfront a hp), List.filter_cons, List.filter_cons, ih]
    · rw [filter_sortInsert_neg (Bool.not_eq_true _ ▸ hp), ih, List.filter_cons]
      simp [hp]

theorem sortCompare_of_left_none {a b : WaterBodySearchResult}
    (h : a.distance = none) : sortCompare a b = 0 := by
  unfold sortCompare
  rw [h]

theorem sortCompare_of_right_none {a b : WaterBodySearchResult}
    (h : b.distance = none) : sortCompare a b = 0 := by
  unfold sortCompare
  rw [h]
  cases a.distance <;> rfl

/-- C3 counterexample: with the first entry lacking a distance and the second
carrying one, both versions of the `searchCombined` result sort keep the
missing-distance entry first; it is not placed after the entry that has a
distance, contrary to the claim. -/
theorem claim_missing_distance_counterexample :
    srNoDist.distance = none ∧ srNear.distance = some 5 ∧
    sortResults [srNoDist, srNear] = [srNoDist, srNear] ∧
    sortResultsLegacy [srNoDist, srNear] = [srNoDist, srNear] :=
  ⟨rfl, rfl, by decide, by
    simp [sortResultsLegacy, stableSort, sortInsert, sortCompareLegacy, numOrZero,
      srNoDist, srNear]⟩

/-- C3 amended: the comparator returns `0` whenever either entry lacks a
distance, so the stable sort leaves every missing-distance entry in its input
position relative to the rest of the list (in particular the missing-distance
entries keep their original relative input order, but they are not moved
after the entries that have a distance). -/
theorem claim_missing_distance_amended :
    (∀ l, (sortResults l).filter (fun r => r.distance == none) =
        l.filter (fun r => r.distance == none)) ∧
    (∀ a b : WaterBodySearchResult, a.distance = none ∨ b.distance = none →
        sortResults [a, b] = [a, b]) := by
  constructor
  · intro l
    apply filter_stableSort
    intro x hx y
    have hxd : x.distance = none := by simpa using hx
    simp [sortCompare_of_left_none hxd]
  · intro a b h
    have hc : sortCompare a b = 0 := by
      rcases h with h | h
      · exact sortCompare_of_left_none h
      · exact sortCompare_of_right_none h
    simp [sortResults, stableSort, sortInsert, hc]

/-- Witness for the amended C3 at a concrete input. -/
theorem claim_missing_distance_amended_witness :
    sortResults [srNoDist, srNear] = [srNoDist, srNear] :=
  claim_missing_distance_amended.2 srNoDist srNear (Or.inl rfl)

theorem formatDistance_999 : formatDistance 999 = "999m" := by
  have h2 : jsRound 999 = 999 := by
    unfold jsRound
    norm_num
  rw [formatDistance, if_pos (by norm_num), h2]
  decide

theorem formatDistance_1000 : formatDistance 1000 = "1.0km" := by
  rw [formatDistance, if_neg (by norm_num)]
  have hdiv : (1000 : Rat) / 1000 = 1 := by norm_num
  rw [hdiv]
  unfold toFixed1
  have hfl : ⌊(1 : ℚ) * 10 + 1 / 2⌋ = 10 := by norm_num
  rw [hfl]
  decide

/-- C8: for every non-negative meter value, below 1000 the result is an
integer within 1/2 of the value, suffixed `m`; from 1000 on it is the
kilometer value rendered with exactly one decimal digit (within 1/20 of a
kilometer), suffixed `km`; and the boundary behaves as
`formatDistance 999 = "999m"`, `formatDistance 1000 = "1.0km"`. -/
theorem claim_formatter_boundary :
    (∀ m : ℚ, 0 ≤ m → m < 1000 → ∃ n : ℤ, 0 ≤ n ∧
        formatDistance m = toString n ++ "m" ∧ |m - (n : ℚ)| ≤ 1 / 2) ∧
    (∀ m : ℚ, 1000 ≤ m → ∃ k : ℕ,
        formatDistance m = toString (k / 10) ++ "." ++ toString (k % 10) ++ "km" ∧
        |m / 1000 - (k : ℚ) / 10| ≤ 1 / 20) ∧
    formatDistance 999 = "999m" ∧ formatDistance 1000 = "1.0km" := by
  refine ⟨?_, ?_, formatDistance_999, formatDistance_1000⟩
  · intro m h0 hlt
    refine ⟨jsRound m, ?_, ?_, ?_⟩
    · exact Int.le_floor.mpr (by push_cast; linarith)
    · rw [formatDistance, if_pos hlt]
    · have hle := Int.floor_le (m + 1 / 2)
      have hgt := Int.lt_floor_add_one (m + 1 / 2)
      unfold jsRound
      rw [abs_le]
      constructor <;> [skip; skip] <;> push_cast at hle hgt ⊢ <;> linarith
  · intro m h1000
    have hq1 : (1 : ℚ) ≤ m / 1000 := by
      rw [le_div_iff₀ (by norm_num : (0 : ℚ) < 1000)]
      linarith
    have hn0 : 0 ≤ ⌊m / 1000 * 10 + 1 / 2⌋ :=
      Int.le_floor.mpr (by push_cast; linarith)
    refine ⟨(⌊m / 1000 * 10 + 1 / 2⌋).toNat, ?_, ?_⟩
    · rw [formatDistance, if_neg (not_lt.mpr h1000)]
      rfl
    · have hcast : ((⌊m / 1000 * 10 + 1 / 2⌋).toNat : ℚ) =
          ((⌊m / 1000 * 10 + 1 / 2⌋ : ℤ) : ℚ) := by
        exact_mod_cast congrArg (fun z : ℤ => (z : ℚ)) (Int.toNat_of_nonneg hn0)
      have hle := Int.floor_le (m / 1000 * 10 + 1 / 2)
      have hgt := Int.lt_floor_add_one (m / 1000 * 10 + 1 / 2)
      rw [abs_le, hcast]
      push_cast at hle hgt ⊢
      constructor <;> linarith

/-- Witness for C8 at a concrete input. -/
theorem claim_formatter_boundary_witness :
    ∃ n : ℤ, 0 ≤ n ∧ formatDistance 500 = toString n ++ "m" ∧
      |(500 : ℚ) - (n : ℚ)| ≤ 1 / 2 :=
  claim_formatter_boundary.1 500 (by norm_num) (by norm_num)

theorem jsAtan2_sqrt_arcsin {a : Real} (h0 : 0 ≤ a) (h1 : a ≤ 1) :
    jsAtan2 (Real.sqrt a) (Real.sqrt (1 - a)) = Real.arcsin (Real.sqrt a) := by
  rcases lt_or_eq_of_le h1 with hlt | heq
  · have hpos : 0 < Real.sqrt (1 - a) := Real.sqrt_pos.mpr (by linarith)
    unfold jsAtan2
    rw [if_pos hpos]
    rw [Real.arcsin_eq_arctan]
    · congr 2
      rw [Real.sq_sqrt h0]
    · constructor
      · have := Real.sqrt_nonneg a
        linarith
      · rw [Real.sqrt_lt' (by norm_num : (0 : Real) < 1)]
        nlinarith
  · subst heq
    norm_num [jsAtan2, Real.sqrt_one, Real.arcsin_one, Real.pi_pos]

theorem haversine_term_nonneg (p1 p2 s t : Real)
    (h1 : 0 ≤ Real.cos p1) (h2 : 0 ≤ Real.cos p2) :
    0 ≤ Real.sin s * Real.sin s + Real.cos p1 * Real.cos p2 * Real.sin t * Real.sin t := by
  nlinarith [sq_nonneg (Real.sin s), sq_nonneg (Real.sin t), mul_nonneg h1 h2]

theorem haversine_term_le_one (p1 p2 t : Real)
    (h1 : 0 ≤ Real.cos p1) (h2 : 0 ≤ Real.cos p2) :
    Real.sin ((p2 - p1) / 2) * Real.sin ((p2 - p1) / 2) +
      Real.cos p1 * Real.cos p2 * Real.sin t * Real.sin t ≤ 1 := by
  have hs1 : Real.sin ((p2 - p1) / 2) ^ 2 = 1 / 2 - Real.cos (p2 - p1) / 2 := by
    rw [Real.sin_sq_eq_half_sub]
    have harg : 2 * ((p2 - p1) / 2) = p2 - p1 := by ring
    rw [harg]
  have hcs : Real.cos (p2 - p1) =
      Real.cos p2 * Real.cos p1 + Real.sin p2 * Real.sin p1 := Real.cos_sub p2 p1
  have hca : Real.cos (p2 + p1) =
      Real.cos p2 * Real.cos p1 - Real.sin p2 * Real.sin p1 := Real.cos_add p2 p1
  have hle : Real.cos (p2 + p1) ≤ 1 := Real.cos_le_one _
  have hst : Real.sin t ^ 2 ≤ 1 := Real.sin_sq_le_one t
  have hcc : 0 ≤ Real.cos p1 * Real.cos p2 := mul_nonneg h1 h2
  nlinarith [mul_nonneg hcc (by linarith : (0 : Real) ≤ 1 - Real.sin t ^ 2)]

/-- C9: for valid latitudes (|lat| ≤ 90 degrees) `calculateDistance` computes
exactly the haversine great-circle distance with mean Earth radius
6,371,000 m, and on identical coordinates it returns exactly 0. -/
theorem claim_haversine_distance :
    (∀ lat1 lon1 lat2 lon2 : Real, -90 ≤ lat1 → lat1 ≤ 90 → -90 ≤ lat2 → lat2 ≤ 90 →
        calculateDistance lat1 lon1 lat2 lon2 = haversineDistance lat1 lon1 lat2 lon2) ∧
    (∀ lat lon : Real, calculateDistance lat lon lat lon = 0) := by
  constructor
  · intro lat1 lon1 lat2 lon2 ha1 hb1 ha2 hb2
    have hpi := Real.pi_pos
    have hc1 : 0 ≤ Real.cos (lat1 * Real.pi / 180) := by
      apply Real.cos_nonneg_of_mem_Icc
      constructor
      · have h := mul_le_mul_of_nonneg_right ha1 hpi.le
        linarith
      · have h := mul_le_mul_of_nonneg_right hb1 hpi.le
        linarith
    have hc2 : 0 ≤ Real.cos (lat2 * Real.pi / 180) := by
      apply Real.cos_nonneg_of_mem_Icc
      constructor
      · have h := mul_le_mul_of_nonneg_right ha2 hpi.le
        linarith
      · have h := mul_le_mul_of_nonneg_right hb2 hpi.le
        linarith
    simp only [calculateDistance, haversineDistance]
    have hd : (lat2 - lat1) * Real.pi / 180 =
        lat2 * Real.pi / 180 - lat1 * Real.pi / 180 := by ring
    rw [hd]
    rw [jsAtan2_sqrt_arcsin
      (haversine_term_nonneg (lat1 * Real.pi / 180) (lat2 * Real.pi / 180)
        ((lat2 * Real.pi / 180 - lat1 * Real.pi / 180) / 2)
        ((lon2 - lon1) * Real.pi / 180 / 2) hc1 hc2)
      (haversine_term_le_one (lat1 * Real.pi / 180) (lat2 * Real.pi / 180)
        ((lon2 - lon1) * Real.pi / 180 / 2) hc1 hc2)]
    simp only [← pow_two]
    ring_nf
  · intro lat lon
    norm_num [calculateDistance, jsAtan2, Real.sin_zero, Real.sqrt_zero, Real.sqrt_one,
      Real.arctan_zero]

/-- Witness for C9 at concrete inputs. -/
theorem claim_haversine_distance_witness :
    calculateDistance 35 (-82) 36 (-83) = haversineDistance 35 (-82) 36 (-83) ∧
      calculateDistance 35 (-82) 35 (-82) = 0 :=
  ⟨claim_haversine_distance.1 35 (-82) 36 (-83) (by norm_num) (by norm_num)
      (by norm_num) (by norm_num),
    claim_haversine_distance.2 35 (-82)⟩

end Service

end PaddlePartner
